import Mathlib

/-!
# Verification of the OCR classifier core

A shallow embedding, in Lean 4, of the core of the `ocr-classifier`
repository: the token counter (`internal/service/tokens.go`), the
preprocessing scale computation (`calculateScaleDimensions`,
`preprocessImage`), and the two-phase rotation-search engine
(`DetectText`, `detectTextSingle`, `detectTextWithRotations`).

Machine floating-point values (`float64`) are modelled as exact
rationals (`ℚ`), except the preprocessing scale factor, which involves
`math.Sqrt` and is modelled as a real number.  The external collaborators
(the `image` decoder, `png` encoder and the gosseract OCR engine) are
modelled as oracle inputs: an `Env` record carries the outcome each
collaborator call would produce, and the engine is a pure function of
that record.
-/

namespace OCRClassifier

/-! ## Character classes

Models of the character-class tests from Go's `unicode` package used by
`countTokens` (`unicode.Is(unicode.Latin, r)`,
`unicode.Is(unicode.Cyrillic, r)`, `unicode.IsDigit(r)`,
`unicode.Is(unicode.Sc, r)`).  Each is written as the principal Unicode
ranges of the corresponding Go range table. -/

/-- Model of `unicode.Is(unicode.Latin, r)`: principal ranges of the
Latin script table. -/
def isLatinChar (c : Char) : Bool :=
  let n := c.toNat
  (0x41 ≤ n && n ≤ 0x5A) || (0x61 ≤ n && n ≤ 0x7A) ||
  (n == 0xAA) || (n == 0xBA) ||
  (0xC0 ≤ n && n ≤ 0xD6) || (0xD8 ≤ n && n ≤ 0xF6) ||
  (0xF8 ≤ n && n ≤ 0x2B8) || (0x2E0 ≤ n && n ≤ 0x2E4) ||
  (0x1D00 ≤ n && n ≤ 0x1D25) || (0x1D2C ≤ n && n ≤ 0x1D5C) ||
  (0x1D62 ≤ n && n ≤ 0x1D65) || (0x1D6B ≤ n && n ≤ 0x1D77) ||
  (0x1D79 ≤ n && n ≤ 0x1DBE) || (0x1E00 ≤ n && n ≤ 0x1EFF) ||
  (n == 0x2071) || (n == 0x207F) || (0x2090 ≤ n && n ≤ 0x209C) ||
  (0x212A ≤ n && n ≤ 0x212B) || (n == 0x2132) || (n == 0x214E) ||
  (0x2160 ≤ n && n ≤ 0x2188) || (0x2C60 ≤ n && n ≤ 0x2C7F) ||
  (0xA722 ≤ n && n ≤ 0xA787) || (0xA78B ≤ n && n ≤ 0xA7CA) ||
  (0xAB30 ≤ n && n ≤ 0xAB64) || (0xFB00 ≤ n && n ≤ 0xFB06) ||
  (0xFF21 ≤ n && n ≤ 0xFF3A) || (0xFF41 ≤ n && n ≤ 0xFF5A)

/-- Model of `unicode.Is(unicode.Cyrillic, r)`: principal ranges of the
Cyrillic script table. -/
def isCyrillicChar (c : Char) : Bool :=
  let n := c.toNat
  (0x400 ≤ n && n ≤ 0x484) || (0x487 ≤ n && n ≤ 0x52F) ||
  (0x1C80 ≤ n && n ≤ 0x1C88) || (n == 0x1D2B) || (n == 0x1D78) ||
  (0x2DE0 ≤ n && n ≤ 0x2DFF) || (0xA640 ≤ n && n ≤ 0xA69F) ||
  (0xFE2E ≤ n && n ≤ 0xFE2F)

/-- Model of `unicode.IsDigit(r)` (category `Nd`): principal decimal-digit
ranges. -/
def isDigitChar (c : Char) : Bool :=
  let n := c.toNat
  (0x30 ≤ n && n ≤ 0x39) || (0x660 ≤ n && n ≤ 0x669) ||
  (0x6F0 ≤ n && n ≤ 0x6F9) || (0x966 ≤ n && n ≤ 0x96F) ||
  (0x9E6 ≤ n && n ≤ 0x9EF) || (0xFF10 ≤ n && n ≤ 0xFF19)

/-- Model of `unicode.Is(unicode.Sc, r)` (currency symbols): principal
ranges of category `Sc`. -/
def isCurrencyChar (c : Char) : Bool :=
  let n := c.toNat
  (n == 0x24) || (0xA2 ≤ n && n ≤ 0xA5) || (n == 0x58F) || (n == 0x60B) ||
  (0x7FE ≤ n && n ≤ 0x7FF) || (0x9F2 ≤ n && n ≤ 0x9F3) || (n == 0x9FB) ||
  (n == 0xAF1) || (n == 0xBF9) || (n == 0xE3F) || (n == 0x17DB) ||
  (0x20A0 ≤ n && n ≤ 0x20C0) || (n == 0xA838) || (n == 0xFDFC) ||
  (n == 0xFE69) || (n == 0xFF04) || (0xFFE0 ≤ n && n ≤ 0xFFE1) ||
  (0xFFE5 ≤ n && n ≤ 0xFFE6)

/-! ## Token counter (`internal/service/tokens.go`, `countTokens`)

The Go function converts the string to a rune slice and scans it once,
deciding for each index `i` whether the rune there counts as a token;
neighbour tests index the same slice at `i-1` / `i+1` behind explicit
bounds guards (`i > 0`, `i < len(runes)-1`). -/

/-- Whether the rune at index `i` of `runes` counts as a token: the body
of the `for i, r := range runes` loop of `countTokens`. -/
def isTokenAt (runes : List Char) (i : Nat) (r : Char) : Bool :=
  if isLatinChar r || isCyrillicChar r || isDigitChar r then
    true
  else if r == '.' || r == ',' then
    decide (0 < i) && decide (i < runes.length - 1) &&
      isDigitChar (runes.getD (i - 1) r) && isDigitChar (runes.getD (i + 1) r)
  else if r == '+' || r == '-' || r == '−' then
    decide (i < runes.length - 1) && isDigitChar (runes.getD (i + 1) r)
  else if r == '°' then
    decide (0 < i) && isDigitChar (runes.getD (i - 1) r)
  else if isCurrencyChar r then
    (decide (0 < i) && isDigitChar (runes.getD (i - 1) r)) ||
      (decide (i < runes.length - 1) && isDigitChar (runes.getD (i + 1) r))
  else
    false

/-- `countTokens` from `internal/service/tokens.go`: the number of loop
indices at which the loop increments `count`. -/
def countTokens (s : String) : Nat :=
  let runes := s.toList
  ((List.range runes.length).filter
    (fun i => isTokenAt runes i (runes.getD i 'a'))).length

/-! Spec-side restatement of the token rules, following the wording of
the specification: a per-character contribution computed from the
character and its immediate neighbours (`none` when the character is at
an edge of the string). -/

/-- Contribution of one character given its immediate neighbours, as the
specification words it: letters and digits count unconditionally; `.`/`,`
only between two digits; a sign only before a digit; a degree sign only
after a digit; a currency symbol next to a digit; all else zero. -/
def specTokenScore (prev : Option Char) (r : Char) (next : Option Char) : Nat :=
  let prevDigit := (prev.map isDigitChar).getD false
  let nextDigit := (next.map isDigitChar).getD false
  if isLatinChar r || isCyrillicChar r || isDigitChar r then 1
  else if (r == '.' || r == ',') && prevDigit && nextDigit then 1
  else if (r == '+' || r == '-' || r == '−') && nextDigit then 1
  else if r == '°' && prevDigit then 1
  else if isCurrencyChar r && (prevDigit || nextDigit) then 1
  else 0

/-- Token count as the specification describes it: the sum over all
positions of the per-character contribution. -/
def specCountTokens (s : String) : Nat :=
  let rs := s.toList
  ((List.range rs.length).map (fun i =>
    specTokenScore (if i = 0 then none else rs.get? (i - 1))
      (rs.getD i 'a') (rs.get? (i + 1)))).sum

example : countTokens "3.14" = 4 := by decide
example : countTokens "$100" = 4 := by decide
example : countTokens "hello!" = 5 := by decide
example : countTokens "--" = 0 := by decide
example : countTokens "привет" = 6 := by decide
example : countTokens "45°" = 3 := by decide
example : specCountTokens "3.14" = 4 := by decide

/-! ## Data model (`part_002`)

`BoundingBox` and `ClassifierResult` mirror the Go structs; `float64`
fields are rationals, except `scaleFactor`, which is real because the
`> 3 MP` preprocessing branch computes a square root. -/

/-- One recognized text region (Go struct `BoundingBox`). -/
structure BoundingBox where
  x : Int
  y : Int
  width : Int
  height : Int
  word : String
  confidence : ℚ
  deriving DecidableEq

/-- The result of one detection attempt (Go struct `ClassifierResult`). -/
structure ClassifierResult where
  meanConfidence : ℚ
  weightedConfidence : ℚ
  tokenCount : Nat
  boxes : List BoundingBox
  angle : Int
  scaleFactor : ℝ

/-- A raw region as returned by the OCR engine
(`gosseract.BoundingBox`): a rectangle, the recognized text, and a raw
confidence on the 0–100 scale. -/
structure RawBox where
  minX : Int
  minY : Int
  maxX : Int
  maxY : Int
  word : String
  confidence : ℚ
  deriving DecidableEq

/-- Opaque error token standing for any error value returned by a
collaborator call (gosseract client error, `png.Encode` error, ...). -/
structure OcrError where
  code : Nat
  deriving DecidableEq

/-- `confidenceThreshold` from `part_002`: further OCR attempts stop once
the weighted confidence reaches this value. -/
def confidenceThreshold : ℚ := 66 / 100

/-- `phase2Angles` from `part_002`: the 19 candidate rotation angles of
Phase 2 (0 is tested in Phase 1, so excluded). -/
def phase2Angles : List Int :=
  [350, 355, 5, 10,
   80, 85, 90, 95, 100,
   170, 175, 180, 185, 190,
   260, 265, 270, 275, 280]

/-! ## Single-attempt aggregation (`detectTextSingle`, `part_002`)

`detectTextSingle` drives one gosseract call and aggregates the returned
regions.  The gosseract interaction (`SetLanguage`, `SetImageFromBytes`,
`GetBoundingBoxes`) is modelled as one oracle value of type
`Except OcrError (List RawBox)`: an `error` stands for any of the three
calls failing, `ok boxes` for the region list the engine returned. -/

/-- The zero result `&ClassifierResult{MeanConfidence: 0, ..., Angle: 0}`
constructed by `detectTextSingle` when no (valid) boxes are found.  Go's
zero value for the absent `ScaleFactor` field is 0. -/
def zeroResult : ClassifierResult :=
  { meanConfidence := 0, weightedConfidence := 0, tokenCount := 0,
    boxes := [], angle := 0, scaleFactor := 0 }

/-- The filter of the aggregation loop: a raw box is kept when its raw
confidence is non-zero (`box.Confidence == 0 → continue`) and its word
has at least one token (`tokens == 0 → continue`). -/
def keepBox (b : RawBox) : Bool :=
  decide (b.confidence ≠ 0) && decide (countTokens b.word ≠ 0)

/-- Conversion of a kept raw box into a result box, as in the
`resultBoxes = append(...)` step: coordinates from the rectangle, width
and height as differences, confidence rescaled to `[0,1]`. -/
def toBoundingBox (b : RawBox) : BoundingBox :=
  { x := b.minX, y := b.minY,
    width := b.maxX - b.minX, height := b.maxY - b.minY,
    word := b.word, confidence := b.confidence / 100 }

/-- The two sequential range clamps applied to `meanConfidence` and
`weightedConfidence` (`if v > 1.0 { v = 1.0 }; if v < 0 { v = 0 }`). -/
def clamp01 (x : ℚ) : ℚ :=
  if x > 1 then 1 else if x < 0 then 0 else x

/-- The aggregation body of `detectTextSingle` applied to the region list
returned by `GetBoundingBoxes`. -/
def aggregateBoxes (boxes : List RawBox) : ClassifierResult :=
  if boxes = [] then zeroResult
  -- `if len(resultBoxes) == 0` after the filtering loop
  else if boxes.filter keepBox = [] then zeroResult
  else
    let filtered := boxes.filter keepBox
    let totalConfidence : ℚ := (filtered.map (fun b => b.confidence)).sum
    let weightedConfidenceSum : ℚ :=
      (filtered.map (fun b => b.confidence / 100 * (countTokens b.word : ℚ))).sum
    let totalTokens : Nat := (filtered.map (fun b => countTokens b.word)).sum
    let resultBoxes := filtered.map toBoundingBox
    { meanConfidence :=
        clamp01 (totalConfidence / (resultBoxes.length : ℚ) / 100),
      weightedConfidence :=
        clamp01 (weightedConfidenceSum / (totalTokens : ℚ)),
      tokenCount := totalTokens,
      boxes := resultBoxes,
      angle := 0, scaleFactor := 0 }

/-- `detectTextSingle` from `part_002`, as a function of the gosseract
oracle outcome: a collaborator error propagates, a returned region list
is aggregated. -/
def detectTextSingle (ocr : Except OcrError (List RawBox)) :
    Except OcrError ClassifierResult :=
  ocr.map aggregateBoxes

/-! ## Preprocessing (`part_005`) -/

/-- The image-size constants of `part_005`. -/
def minDimension : Nat := 32

/-- `halfMegapixel = 524_288` (0.5 binary MP). -/
def halfMegapixel : Nat := 524288

/-- `oneMegapixel = 2 * halfMegapixel`. -/
def oneMegapixel : Nat := 2 * halfMegapixel

/-- `twoMegapixels = 2 * oneMegapixel`. -/
def twoMegapixels : Nat := 2 * oneMegapixel

/-- `threeMegapixels = 3 * oneMegapixel`. -/
def threeMegapixels : Nat := 3 * oneMegapixel

/-- A decoded raster, abstracted to its dimensions (`bounds.Dx()`,
`bounds.Dy()`); the pixel payload never influences the control flow the
claims are about. -/
structure Img where
  w : Nat
  h : Nat
  deriving DecidableEq

/-- `calculateScaleDimensions` from `part_005`: target dimensions and
scale factor from the megapixel thresholds.  The `> 3 MP` branch computes
`math.Sqrt(threeMegapixels / pixels)` and truncates the scaled dimensions
to integers (`int(float64(w) * scaleFactor)`). -/
noncomputable def calculateScaleDimensions (w h pixels : Nat) :
    Nat × Nat × ℝ :=
  if pixels < halfMegapixel then
    (w * 4, h * 4, (4 : ℝ))
  else if pixels < oneMegapixel then
    (w * 3, h * 3, (3 : ℝ))
  else if pixels < twoMegapixels then
    (w * 3 / 2, h * 3 / 2, (3 / 2 : ℝ))
  else if pixels ≤ threeMegapixels then
    (w, h, (1 : ℝ))
  else
    let scaleFactor : ℝ := Real.sqrt ((threeMegapixels : ℝ) / (pixels : ℝ))
    ((⌊(w : ℝ) * scaleFactor⌋).toNat, (⌊(h : ℝ) * scaleFactor⌋).toNat,
      scaleFactor)

/-- `preprocessImage` from `part_005`: `none` (Go: `nil, 0`) when either
dimension is at most `minDimension`; otherwise the resized image (the
grayscale and median-blur steps keep the dimensions) and the scale
factor. -/
noncomputable def preprocessImage (img : Img) : Option (Img × ℝ) :=
  if img.w ≤ minDimension || img.h ≤ minDimension then none
  else
    let d := calculateScaleDimensions img.w img.h (img.w * img.h)
    some (⟨d.1, d.2.1⟩, d.2.2)

/-! ## The detection engine (`DetectText`, `part_002`)

`DetectText` interacts with four collaborators: the image decoder
(`image.Decode`), the PNG encoder (`encodeImage`), and gosseract — once
on the raw bytes in the decode-failure fallback, once on the encoded
preprocessed image in Phase 1, and once per rotation angle in Phase 2.
`Env` carries the outcome of each of these calls for one request.

Phase 2 runs four worker goroutines; the workers' outcomes arrive on
`resultsChan` in completion order.  `phase2Outcomes` is that arrival
order: one `(angle, gosseract outcome)` pair per processed angle, where
an `error` stands for the worker's `encodeImage` or gosseract call
failing at that angle. -/

/-- The collaborator outcomes relevant to one `DetectText` call. -/
structure Env where
  /-- `image.Decode` outcome: `none` when the bytes are not a raster. -/
  decoded : Option Img
  /-- gosseract on the raw submitted bytes (the fallback path). -/
  rawOcr : Except OcrError (List RawBox)
  /-- `encodeImage(preprocessed, "png")` outcome on the Phase 1 path. -/
  encodeOutcome : Except OcrError Unit
  /-- gosseract on the encoded preprocessed image (Phase 1). -/
  phase1Ocr : Except OcrError (List RawBox)
  /-- Phase 2 per-angle outcomes, in arrival order on `resultsChan`. -/
  phase2Outcomes : List (Int × Except OcrError (List RawBox))

/-- The body of `rotationWorker` for one pulled angle: rotate (dimension
preserving for the engine's purposes), encode and detect; an encode or
detect failure yields an errored outcome, success yields the single
result stamped with the angle and the scale factor. -/
noncomputable def rotationOutcome (scaleFactor : ℝ)
    (p : Int × Except OcrError (List RawBox)) :
    Except OcrError ClassifierResult :=
  (detectTextSingle p.2).map
    (fun r => { r with angle := p.1, scaleFactor := scaleFactor })

/-- The result-collection loop of `detectTextWithRotations`
(`for rr := range resultsChan`): errored outcomes are skipped, the
running best is replaced only on strictly greater weighted confidence,
and the first outcome reaching `confidenceThreshold` is returned at
once (the remaining channel contents are drained and discarded). -/
noncomputable def collectRotationResults (best : ClassifierResult) :
    List (Except OcrError ClassifierResult) → ClassifierResult
  | [] => best
  | .error _ :: rest => collectRotationResults best rest
  | .ok r :: rest =>
      let best' :=
        if r.weightedConfidence > best.weightedConfidence then r else best
      if r.weightedConfidence ≥ confidenceThreshold then r
      else collectRotationResults best' rest

/-- `detectTextWithRotations` from `part_002`, as a function of the
Phase 1 result and the arrival-ordered Phase 2 outcomes.  The Go
function's error return is always `nil`, so the model returns the result
directly. -/
noncomputable def detectTextWithRotations (scaleFactor : ℝ)
    (phase1Result : ClassifierResult)
    (outcomes : List (Int × Except OcrError (List RawBox))) :
    ClassifierResult :=
  collectRotationResults phase1Result
    (outcomes.map (rotationOutcome scaleFactor))

/-- `DetectText` from `part_002`. -/
noncomputable def DetectText (env : Env) : Except OcrError ClassifierResult :=
  match env.decoded with
  | none =>
      -- Decode failed: try raw OCR; on success stamp angle 0, scale 0.
      (detectTextSingle env.rawOcr).map
        (fun r => { r with angle := 0, scaleFactor := 0 })
  | some img =>
      match preprocessImage img with
      | none => .ok zeroResult  -- image too small: `&ClassifierResult{}`
      | some (_, scaleFactor) =>
          match env.encodeOutcome with
          | .error e => .error e
          | .ok _ =>
              match detectTextSingle env.phase1Ocr with
              | .error e => .error e
              | .ok r =>
                  let r1 := { r with angle := 0, scaleFactor := scaleFactor }
                  if r1.weightedConfidence ≥ confidenceThreshold then .ok r1
                  else .ok (detectTextWithRotations scaleFactor r1
                    env.phase2Outcomes)

/-! ## Spec-side selection functions

Restatements, following the specification's wording, of how the engine
is said to choose among Phase 1 and Phase 2 results.  They are compared
with the source-derived `collectRotationResults` in the theorems
below. -/

/-- The successfully completed outcomes, in arrival order. -/
def okResults (l : List (Except OcrError ClassifierResult)) :
    List ClassifierResult :=
  l.filterMap (fun o => match o with | .ok r => some r | .error _ => none)

/-- The first result in `l` whose weighted confidence reaches the
acceptance threshold. -/
def firstOverThreshold (l : List ClassifierResult) :
    Option ClassifierResult :=
  l.find? (fun r => decide (confidenceThreshold ≤ r.weightedConfidence))

/-- Whether `r` attains the maximal weighted confidence of `l`. -/
def isMaxIn (l : List ClassifierResult) (r : ClassifierResult) : Bool :=
  l.all (fun x => decide (x.weightedConfidence ≤ r.weightedConfidence))

/-- The first element of `p :: l` attaining the maximal weighted
confidence of `p :: l` (the "earliest result at a tied maximum"). -/
def firstMaxFrom (p : ClassifierResult) (l : List ClassifierResult) :
    ClassifierResult :=
  ((p :: l).find? (isMaxIn (p :: l))).getD p

/-! ## Helper lemmas for the token counter -/

/-- The previous-neighbour guard of the Go loop agrees with the
option-valued previous neighbour. -/
lemma prevGuard_eq (rs : List Char) (i : Nat) (hi : i < rs.length) (d : Char) :
    (decide (0 < i) && isDigitChar (rs.getD (i - 1) d)) =
      ((if i = 0 then none else rs.get? (i - 1)).map isDigitChar).getD false := by
  cases i with
  | zero => simp
  | succ j =>
      have hj : j < rs.length := Nat.lt_of_succ_lt hi
      simp [List.getD_eq_getElem?_getD, List.get?_eq_getElem?,
        List.getElem?_eq_getElem hj]

/-- The next-neighbour guard of the Go loop agrees with the
option-valued next neighbour. -/
lemma nextGuard_eq (rs : List Char) (i : Nat) (hi : i < rs.length) (d : Char) :
    (decide (i < rs.length - 1) && isDigitChar (rs.getD (i + 1) d)) =
      ((rs.get? (i + 1)).map isDigitChar).getD false := by
  by_cases h : i + 1 < rs.length
  · have h' : i < rs.length - 1 := by omega
    simp [h', List.getD_eq_getElem?_getD, List.get?_eq_getElem?,
      List.getElem?_eq_getElem h]
  · have h' : ¬ i < rs.length - 1 := by omega
    have h2 : rs[i + 1]? = none := List.getElem?_eq_none (by omega)
    simp [h', List.get?_eq_getElem?, h2]

/-- The Go loop body and the per-character spec contribution agree, for
an arbitrary character and arbitrary guard booleans linked by
`prevGuard_eq` / `nextGuard_eq` shapes. -/
lemma tokenScore_branches (r : Char) (a b c d pd nd : Bool)
    (hA : (a && c) = pd) (hB : (b && d) = nd) :
    (if (if isLatinChar r || isCyrillicChar r || isDigitChar r then true
         else if r == '.' || r == ',' then a && b && c && d
         else if r == '+' || r == '-' || r == '−' then b && d
         else if r == '°' then a && c
         else if isCurrencyChar r then (a && c) || (b && d)
         else false) then (1 : Nat) else 0) =
    (if isLatinChar r || isCyrillicChar r || isDigitChar r then 1
     else if (r == '.' || r == ',') && pd && nd then 1
     else if (r == '+' || r == '-' || r == '−') && nd then 1
     else if r == '°' && pd then 1
     else if isCurrencyChar r && (pd || nd) then 1
     else 0) := by
  subst hA hB
  cases h1 : (isLatinChar r || isCyrillicChar r || isDigitChar r) with
  | true => simp [h1]
  | false =>
      by_cases h2 : (r == '.' || r == ',') = true
      · have hr : r = '.' ∨ r = ',' := by
          rcases Bool.or_eq_true_iff.mp h2 with h | h
          · exact Or.inl (by simpa using h)
          · exact Or.inr (by simpa using h)
        rcases hr with h | h <;> subst h <;> revert a b c d <;> decide
      · by_cases h3 : ((r == '+' || r == '-') || r == '−') = true
        · have hr : r = '+' ∨ r = '-' ∨ r = '−' := by
            rcases Bool.or_eq_true_iff.mp h3 with h | h
            · rcases Bool.or_eq_true_iff.mp h with h | h
              · exact Or.inl (by simpa using h)
              · exact Or.inr (Or.inl (by simpa using h))
            · exact Or.inr (Or.inr (by simpa using h))
          rcases hr with h | h | h <;> subst h <;> revert a b c d <;> decide
        · by_cases h4 : (r == '°') = true
          · have h : r = '°' := by simpa using h4
            subst h
            revert a b c d
            decide
          · by_cases h5 : isCurrencyChar r = true
            · simp [h1, h2, h3, h4, h5]
            · simp [h1, h2, h3, h4, h5]

/-- Pointwise agreement of the Go loop body with the spec contribution
at every valid index. -/
lemma isTokenAt_eq_specScore (rs : List Char) (i : Nat)
    (hi : i < rs.length) :
    (if isTokenAt rs i (rs.getD i 'a') then 1 else 0) =
      specTokenScore (if i = 0 then none else rs.get? (i - 1))
        (rs.getD i 'a') (rs.get? (i + 1)) := by
  have hA := prevGuard_eq rs i hi (rs.getD i 'a')
  have hB := nextGuard_eq rs i hi (rs.getD i 'a')
  have h := tokenScore_branches (rs.getD i 'a') (decide (0 < i))
    (decide (i < rs.length - 1))
    (isDigitChar (rs.getD (i - 1) (rs.getD i 'a')))
    (isDigitChar (rs.getD (i + 1) (rs.getD i 'a')))
    (((if i = 0 then none else rs.get? (i - 1)).map isDigitChar).getD false)
    (((rs.get? (i + 1)).map isDigitChar).getD false) hA hB
  simpa only [isTokenAt, specTokenScore] using h

/-- Counting the indices a boolean test keeps equals summing a pointwise
equal 0/1 contribution. -/
lemma filter_length_eq_map_sum (p : Nat → Bool) (f : Nat → Nat) :
    ∀ l : List Nat, (∀ i ∈ l, (if p i then 1 else 0) = f i) →
      (l.filter p).length = (l.map f).sum := by
  intro l
  induction l with
  | nil => simp
  | cons a t ih =>
      intro h
      have ha := h a (List.mem_cons_self a t)
      have ht := ih (fun i hi => h i (List.mem_cons_of_mem a hi))
      cases hpa : p a <;> rw [hpa] at ha <;>
        simp [List.filter_cons, hpa, ht, ← ha] <;>
        omega

/-- **C3.** `countTokens` counts exactly the characters the
specification describes: letters and digits unconditionally, `.`/`,`
between two digits, a sign before a digit, a degree sign after a digit,
a currency symbol next to a digit, and nothing else; and the four
concrete evaluations of the specification hold. -/
theorem countTokens_matches_spec :
    (∀ s : String, countTokens s = specCountTokens s) ∧
    countTokens "3.14" = 4 ∧ countTokens "$100" = 4 ∧
    countTokens "hello!" = 5 ∧ countTokens "--" = 0 := by
  refine ⟨fun s => ?_, by decide, by decide, by decide, by decide⟩
  unfold countTokens specCountTokens
  apply filter_length_eq_map_sum
  intro i hi
  exact isTokenAt_eq_specScore s.toList i (List.mem_range.mp hi)

/-! ## The scale-factor table (claim C2)

The source thresholds are binary megapixels (`halfMegapixel = 2^19`,
..., `threeMegapixels = 3 * 2^20 = 3145728`), not decimal millions of
pixels; `specScaleFactor` restates the table with those thresholds
written out. -/

/-- The scale factor as a function of the pixel count alone, with the
source's binary-megapixel thresholds written as explicit numerals. -/
noncomputable def specScaleFactor (pixels : Nat) : ℝ :=
  if pixels < 524288 then 4
  else if pixels < 1048576 then 3
  else if pixels < 2097152 then 3 / 2
  else if pixels ≤ 3145728 then 1
  else Real.sqrt ((3145728 : ℝ) / (pixels : ℝ))

/-- The scale-factor component of `calculateScaleDimensions` depends on
the pixel count alone and follows the binary-megapixel table. -/
lemma calculateScaleDimensions_snd (w h pixels : Nat) :
    (calculateScaleDimensions w h pixels).2.2 = specScaleFactor pixels := by
  unfold calculateScaleDimensions specScaleFactor
  rw [show halfMegapixel = 524288 from rfl,
      show oneMegapixel = 1048576 from rfl,
      show twoMegapixels = 2097152 from rfl,
      show threeMegapixels = 3145728 from rfl]
  split_ifs <;> norm_cast

/-- Preprocessing of an image that passes the minimum-size check
succeeds and records the table's scale factor. -/
lemma preprocessImage_scale (w h : Nat) (hw : 32 < w) (hh : 32 < h) :
    preprocessImage ⟨w, h⟩ =
      some (⟨(calculateScaleDimensions w h (w * h)).1,
             (calculateScaleDimensions w h (w * h)).2.1⟩,
            specScaleFactor (w * h)) := by
  unfold preprocessImage minDimension
  rw [if_neg]
  · simp only [calculateScaleDimensions_snd]
  · simp only [Bool.or_eq_true, decide_eq_true_eq, not_or]
    omega

/-- **C2 (counterexample).** The claim's value for a 4000×4000 image is
false: the scale factor recorded by the code is
`sqrt(3145728 / 16000000)`, not `sqrt(3000000 / 16000000)` — the
thresholds are binary megapixels, not decimal. -/
theorem scaleFactor_4000_counterexample :
    ¬ ((preprocessImage ⟨4000, 4000⟩).map Prod.snd =
        some (Real.sqrt ((3000000 : ℝ) / (16000000 : ℝ)))) := by
  intro hcl
  rw [preprocessImage_scale 4000 4000 (by norm_num) (by norm_num)] at hcl
  have h1 : specScaleFactor (4000 * 4000) =
      Real.sqrt ((3145728 : ℝ) / (16000000 : ℝ)) := by
    unfold specScaleFactor
    norm_num
  have h2 : Real.sqrt ((3145728 : ℝ) / (16000000 : ℝ)) =
      Real.sqrt ((3000000 : ℝ) / (16000000 : ℝ)) := by
    simpa [h1] using hcl
  have h3 : ((3145728 : ℝ) / (16000000 : ℝ)) =
      ((3000000 : ℝ) / (16000000 : ℝ)) := by
    have hx : (0 : ℝ) ≤ (3145728 : ℝ) / (16000000 : ℝ) := by norm_num
    have hy : (0 : ℝ) ≤ (3000000 : ℝ) / (16000000 : ℝ) := by norm_num
    calc (3145728 : ℝ) / (16000000 : ℝ)
        = Real.sqrt ((3145728 : ℝ) / (16000000 : ℝ)) ^ 2 := by
          rw [Real.sq_sqrt hx]
      _ = Real.sqrt ((3000000 : ℝ) / (16000000 : ℝ)) ^ 2 := by rw [h2]
      _ = (3000000 : ℝ) / (16000000 : ℝ) := Real.sq_sqrt hy
  norm_num at h3

/-- **C2 (amended).** For every decoded image with both dimensions above
32 px, the scale factor is a function of the pixel count alone, given by
the binary-megapixel table (4.0 below 524288 px, 3.0 below 1048576 px,
1.5 below 2097152 px, 1.0 up to 3145728 px, `sqrt(3145728 / pixels)`
above); concretely 400×400 yields 4.0, 1600×1600 yields 1.0, and
4000×4000 yields `sqrt(3145728 / 16000000)` ≈ 0.4434. -/
theorem scaleFactor_table (w h : Nat) (hw : 32 < w) (hh : 32 < h) :
    (preprocessImage ⟨w, h⟩).map Prod.snd = some (specScaleFactor (w * h)) ∧
    (preprocessImage ⟨400, 400⟩).map Prod.snd = some ((4 : ℝ)) ∧
    (preprocessImage ⟨1600, 1600⟩).map Prod.snd = some ((1 : ℝ)) ∧
    (preprocessImage ⟨4000, 4000⟩).map Prod.snd =
      some (Real.sqrt ((3145728 : ℝ) / (16000000 : ℝ))) := by
  refine ⟨?_, ?_, ?_, ?_⟩
  · rw [preprocessImage_scale w h hw hh]; rfl
  · rw [preprocessImage_scale 400 400 (by norm_num) (by norm_num)]
    unfold specScaleFactor
    norm_num
  · rw [preprocessImage_scale 1600 1600 (by norm_num) (by norm_num)]
    unfold specScaleFactor
    norm_num
  · rw [preprocessImage_scale 4000 4000 (by norm_num) (by norm_num)]
    unfold specScaleFactor
    norm_num

/-- Witness for the amended C2 at the concrete 400×400 input. -/
theorem scaleFactor_table_witness :
    (preprocessImage ⟨400, 400⟩).map Prod.snd =
      some (specScaleFactor (400 * 400)) :=
  (scaleFactor_table 400 400 (by norm_num) (by norm_num)).1

/-! ## DetectText path claims (C4, C5, C6) -/

/-- **C5.** A decodable image with either dimension at most 32 px makes
`DetectText` return the all-zero result, with no error; the OCR oracle
components of the environment are arbitrary, so no OCR call can have
influenced the answer. -/
theorem tooSmall_zero_result (env : Env) (img : Img)
    (hdec : env.decoded = some img) (hsmall : img.w ≤ 32 ∨ img.h ≤ 32) :
    DetectText env = .ok zeroResult := by
  have hpre : preprocessImage img = none := by
    unfold preprocessImage minDimension
    rw [if_pos]
    simp only [Bool.or_eq_true, decide_eq_true_eq]
    exact hsmall
  unfold DetectText
  rw [hdec]
  simp only [hpre]

/-- Witness: a 20×500 image yields the zero result whatever the OCR
oracle would say. -/
theorem tooSmall_zero_result_witness :
    DetectText ⟨some ⟨20, 500⟩, .ok [], .ok (), .ok [], []⟩ =
      .ok zeroResult :=
  tooSmall_zero_result _ ⟨20, 500⟩ rfl (Or.inl (by norm_num))

/-- **C6.** When decoding fails, `DetectText` is exactly one raw-bytes
detection attempt stamped with angle 0 and scale factor 0 (preprocessing
and the rotation search are never consulted: the corresponding oracle
components are arbitrary), and it errors exactly when the raw-bytes
gosseract call errors. -/
theorem decodeFailure_fallback (env : Env) (hdec : env.decoded = none) :
    DetectText env = (detectTextSingle env.rawOcr).map
      (fun r => { r with angle := 0, scaleFactor := 0 }) ∧
    (∀ e, DetectText env = .error e ↔ env.rawOcr = .error e) := by
  constructor
  · unfold DetectText
    rw [hdec]
  · intro e
    unfold DetectText
    rw [hdec]
    cases h : env.rawOcr with
    | error e' => simp [detectTextSingle, h, Except.map]
    | ok bs => simp [detectTextSingle, h, Except.map]

/-- Witness: with undecodable bytes and a raw OCR call returning no
boxes, the fallback result is the single raw attempt. -/
theorem decodeFailure_fallback_witness :
    DetectText ⟨none, .ok [], .ok (), .ok [], []⟩ =
      (detectTextSingle (.ok [])).map
        (fun r => { r with angle := 0, scaleFactor := 0 }) :=
  (decodeFailure_fallback _ rfl).1

/-- **C4.** If the image decodes, preprocessing succeeds, and the
Phase 1 detection reaches the acceptance threshold, `DetectText` returns
that Phase 1 result (angle 0, the preprocessing scale factor), and the
Phase 2 outcomes have no influence on the answer. -/
theorem phase1_accept (env : Env) (img pimg : Img) (sf : ℝ)
    (r : ClassifierResult)
    (hdec : env.decoded = some img)
    (hpre : preprocessImage img = some (pimg, sf))
    (henc : env.encodeOutcome = .ok ())
    (hocr : detectTextSingle env.phase1Ocr = .ok r)
    (hth : confidenceThreshold ≤ r.weightedConfidence) :
    DetectText env = .ok { r with angle := 0, scaleFactor := sf } ∧
    (∀ alt, DetectText { env with phase2Outcomes := alt } = DetectText env) := by
  have key : ∀ e : Env, e.decoded = some img → e.encodeOutcome = .ok () →
      detectTextSingle e.phase1Ocr = .ok r →
      DetectText e = .ok { r with angle := 0, scaleFactor := sf } := by
    intro e h1 h2 h3
    unfold DetectText
    rw [h1]
    simp only [hpre, h2, h3]
    rw [if_pos]
    exact hth
  refine ⟨key env hdec henc hocr, fun alt => ?_⟩
  rw [key { env with phase2Outcomes := alt } hdec henc hocr,
    key env hdec henc hocr]

/-- Evaluation of the single-attempt aggregation at the witness input. -/
lemma phase1_witness_ocr :
    detectTextSingle (.ok [⟨0, 0, 10, 10, "abc", 100⟩]) =
      .ok ⟨1, 1, 3, [⟨0, 0, 10, 10, "abc", 1⟩], 0, 0⟩ := by
  have htok : countTokens "abc" = 3 := by decide
  simp [detectTextSingle, aggregateBoxes, keepBox, toBoundingBox, clamp01,
    htok, Except.map]

/-- Witness: a 100×100 image whose Phase 1 detection yields one
fully-confident box is answered from Phase 1 alone. -/
theorem phase1_accept_witness :
    DetectText ⟨some ⟨100, 100⟩, .ok [], .ok (),
        .ok [⟨0, 0, 10, 10, "abc", 100⟩], []⟩ =
      .ok ⟨1, 1, 3, [⟨0, 0, 10, 10, "abc", 1⟩], 0, (4 : ℝ)⟩ :=
  (phase1_accept
    ⟨some ⟨100, 100⟩, .ok [], .ok (), .ok [⟨0, 0, 10, 10, "abc", 100⟩], []⟩
    ⟨100, 100⟩ ⟨400, 400⟩ (4 : ℝ)
    ⟨1, 1, 3, [⟨0, 0, 10, 10, "abc", 1⟩], 0, 0⟩
    rfl rfl rfl phase1_witness_ocr (by norm_num [confidenceThreshold])).1

/-! ## Aggregation invariants (C8, C9, C10) -/

/-- Dividing a non-zero rational by 100 cannot give zero. -/
lemma div_hundred_ne_zero {q : ℚ} (hq : q ≠ 0) : q / 100 ≠ 0 := by
  intro h
  rcases div_eq_zero_iff.mp h with h' | h'
  · exact hq h'
  · norm_num at h'

/-- The box list of an aggregated result is exactly the kept raw
regions, converted. -/
lemma aggregateBoxes_boxes (raws : List RawBox) :
    (aggregateBoxes raws).boxes = (raws.filter keepBox).map toBoundingBox := by
  unfold aggregateBoxes
  split
  · next hempty => subst hempty; simp [zeroResult]
  · split
    · next hfil => rw [hfil]; simp [zeroResult]
    · rfl

/-- The token count of an aggregated result is the token sum over the
kept raw regions. -/
lemma aggregateBoxes_tokenCount (raws : List RawBox) :
    (aggregateBoxes raws).tokenCount =
      ((raws.filter keepBox).map (fun b => countTokens b.word)).sum := by
  unfold aggregateBoxes
  split
  · next hempty => subst hempty; simp [zeroResult]
  · split
    · next hfil => rw [hfil]; simp [zeroResult]
    · rfl

/-- **C8.** Every box of a `detectTextSingle` result has non-zero
confidence and a word with at least one token, and the box list is
exactly the kept raw regions: zero-confidence or zero-token regions are
discarded, not retained. -/
theorem boxes_filtered (raws : List RawBox) (r : ClassifierResult)
    (h : detectTextSingle (.ok raws) = .ok r) :
    (∀ b ∈ r.boxes, b.confidence ≠ 0 ∧ 1 ≤ countTokens b.word) ∧
    r.boxes = (raws.filter keepBox).map toBoundingBox := by
  have hr : r = aggregateBoxes raws := by
    simpa [detectTextSingle, Except.map] using h.symm
  subst hr
  refine ⟨?_, aggregateBoxes_boxes raws⟩
  intro b hb
  rw [aggregateBoxes_boxes] at hb
  simp only [List.mem_map] at hb
  obtain ⟨raw, hraw, hbeq⟩ := hb
  have hkeep : keepBox raw = true := List.of_mem_filter hraw
  simp only [keepBox, Bool.and_eq_true, decide_eq_true_eq] at hkeep
  subst hbeq
  exact ⟨div_hundred_ne_zero hkeep.1, Nat.one_le_iff_ne_zero.mpr hkeep.2⟩

/-- Evaluation of the aggregation on a region list containing a
zero-confidence region, a tokenless region and one valid region. -/
lemma mixed_boxes_eval :
    detectTextSingle (.ok [⟨0, 0, 1, 1, "ab", 0⟩, ⟨0, 0, 1, 1, "!!", 90⟩,
        ⟨0, 0, 2, 2, "x1", 80⟩]) =
      .ok ⟨4/5, 4/5, 2, [⟨0, 0, 2, 2, "x1", 4/5⟩], 0, 0⟩ := by
  have h1 : countTokens "ab" = 2 := by decide
  have h2 : countTokens "!!" = 0 := by decide
  have h3 : countTokens "x1" = 2 := by decide
  simp [detectTextSingle, aggregateBoxes, keepBox, toBoundingBox, clamp01,
    h1, h2, h3, Except.map, List.filter]
  norm_num

/-- Witness: on the mixed region list only the valid region survives. -/
theorem boxes_filtered_witness :
    (⟨4/5, 4/5, 2, [⟨0, 0, 2, 2, "x1", 4/5⟩], 0, 0⟩ :
        ClassifierResult).boxes =
      (([⟨0, 0, 1, 1, "ab", 0⟩, ⟨0, 0, 1, 1, "!!", 90⟩,
          ⟨0, 0, 2, 2, "x1", 80⟩] : List RawBox).filter keepBox).map
        toBoundingBox :=
  (boxes_filtered _ _ mixed_boxes_eval).2

/-- The token-count consistency predicate of the data-model invariants. -/
def TokenConsistent (r : ClassifierResult) : Prop :=
  r.tokenCount = (r.boxes.map (fun b => countTokens b.word)).sum

/-- Every single-attempt result is token-consistent. -/
lemma detectTextSingle_tokenConsistent (o : Except OcrError (List RawBox))
    (x : ClassifierResult) (h : detectTextSingle o = .ok x) :
    TokenConsistent x := by
  cases o with
  | error e => simp [detectTextSingle, Except.map] at h
  | ok raws =>
      have hx : x = aggregateBoxes raws := by
        simpa [detectTextSingle, Except.map] using h.symm
      subst hx
      unfold TokenConsistent
      rw [aggregateBoxes_tokenCount, aggregateBoxes_boxes, List.map_map]
      rfl

/-- Stamping angle and scale factor onto a result never changes its
token count or boxes. -/
lemma tokenConsistent_stamp (x : ClassifierResult) (a : Int) (sf : ℝ)
    (h : TokenConsistent x) :
    TokenConsistent { x with angle := a, scaleFactor := sf } := h

/-- The collection loop only ever returns the initial best or one of the
successful outcomes, so it preserves any predicate holding of them. -/
lemma collectRotationResults_preserves (P : ClassifierResult → Prop) :
    ∀ (l : List (Except OcrError ClassifierResult)) (best : ClassifierResult),
      P best → (∀ x, Except.ok x ∈ l → P x) →
      P (collectRotationResults best l) := by
  intro l
  induction l with
  | nil => intro best hb _; exact hb
  | cons a t ih =>
      intro best hb hl
      cases a with
      | error e =>
          exact ih best hb (fun x hx => hl x (List.mem_cons_of_mem _ hx))
      | ok r =>
          show P (if r.weightedConfidence ≥ confidenceThreshold then r
            else collectRotationResults
              (if r.weightedConfidence > best.weightedConfidence then r
               else best) t)
          have hr : P r := hl r (List.mem_cons_self _ _)
          split
          · exact hr
          · refine ih _ ?_ (fun x hx => hl x (List.mem_cons_of_mem _ hx))
            split
            · exact hr
            · exact hb

/-- **C9.** Every result `DetectText` returns is token-consistent:
`tokenCount` is the sum of `countTokens` over exactly the returned
boxes (hence 0 when `boxes` is empty). -/
theorem tokenCount_consistent (env : Env) (r : ClassifierResult)
    (h : DetectText env = .ok r) :
    r.tokenCount = (r.boxes.map (fun b => countTokens b.word)).sum := by
  show TokenConsistent r
  unfold DetectText at h
  split at h
  · -- decode failure: stamped raw-bytes attempt
    cases ho : detectTextSingle env.rawOcr with
    | error e => rw [ho] at h; simp [Except.map] at h
    | ok y =>
        rw [ho] at h
        simp only [Except.map] at h
        have hy := detectTextSingle_tokenConsistent _ _ ho
        obtain rfl := (Except.ok.injEq _ _).mp h
        exact tokenConsistent_stamp y 0 0 hy
  · -- decoded image
    split at h
    · -- too small
      obtain rfl := (Except.ok.injEq _ _).mp h
      rfl
    · split at h
      · exact absurd h (by simp)
      · split at h
        · exact absurd h (by simp)
        · next y hy =>
            have hyc := detectTextSingle_tokenConsistent _ _ hy
            simp only [ge_iff_le] at h
            split at h <;> obtain rfl := (Except.ok.injEq _ _).mp h
            · exact tokenConsistent_stamp y 0 _ hyc
            · refine collectRotationResults_preserves TokenConsistent _ _
                (tokenConsistent_stamp y 0 _ hyc) ?_
              intro x hx
              simp only [List.mem_map] at hx
              obtain ⟨p, _, hp⟩ := hx
              cases hop : detectTextSingle p.2 with
              | error e => simp [rotationOutcome, hop, Except.map] at hp
              | ok z =>
                  have hz := detectTextSingle_tokenConsistent _ _ hop
                  simp only [rotationOutcome, hop, Except.map] at hp
                  obtain rfl := (Except.ok.injEq _ _).mp hp
                  exact tokenConsistent_stamp z _ _ hz

/-- Witness: the too-small zero result is token-consistent. -/
theorem tokenCount_consistent_witness :
    zeroResult.tokenCount =
      (zeroResult.boxes.map (fun b => countTokens b.word)).sum :=
  tokenCount_consistent ⟨some ⟨10, 10⟩, .ok [], .ok (), .ok [], []⟩
    zeroResult rfl

/-- A non-empty list of kept regions has token sum at least one. -/
lemma one_le_token_sum (l : List RawBox) (hkeep : ∀ b ∈ l, keepBox b = true)
    (hne : l ≠ []) :
    1 ≤ (l.map (fun b => countTokens b.word)).sum := by
  cases l with
  | nil => exact absurd rfl hne
  | cons a t =>
      have ha := hkeep a (List.mem_cons_self a t)
      simp only [keepBox, Bool.and_eq_true, decide_eq_true_eq] at ha
      have : countTokens a.word ≠ 0 := ha.2
      simp only [List.map_cons, List.sum_cons]
      omega

/-- The two sequential clamps land in `[0, 1]`. -/
lemma clamp01_bounds (x : ℚ) : 0 ≤ clamp01 x ∧ clamp01 x ≤ 1 := by
  unfold clamp01
  split_ifs <;> constructor <;> linarith

/-- Both confidences of an aggregated result lie in `[0, 1]`. -/
lemma aggregateBoxes_bounds (raws : List RawBox) :
    0 ≤ (aggregateBoxes raws).meanConfidence ∧
    (aggregateBoxes raws).meanConfidence ≤ 1 ∧
    0 ≤ (aggregateBoxes raws).weightedConfidence ∧
    (aggregateBoxes raws).weightedConfidence ≤ 1 := by
  unfold aggregateBoxes
  split
  · simp [zeroResult]
  · split
    · simp [zeroResult]
    · exact ⟨(clamp01_bounds _).1, (clamp01_bounds _).2,
        (clamp01_bounds _).1, (clamp01_bounds _).2⟩

/-- **C10.** The `meanConfidence` divisor (the number of retained boxes)
and the `weightedConfidence` divisor (the token total) are positive for
any non-empty filtered list — every kept box contributes at least one
token — and every single-attempt result stores both normalized
quotients clamped into `[0, 1]`. -/
theorem division_guards (raws : List RawBox)
    (o : Except OcrError (List RawBox)) (x : ClassifierResult)
    (hne : raws.filter keepBox ≠ [])
    (hok : detectTextSingle o = .ok x) :
    0 < ((raws.filter keepBox).map toBoundingBox).length ∧
    1 ≤ ((raws.filter keepBox).map (fun b => countTokens b.word)).sum ∧
    0 ≤ x.meanConfidence ∧ x.meanConfidence ≤ 1 ∧
    0 ≤ x.weightedConfidence ∧ x.weightedConfidence ≤ 1 := by
  refine ⟨?_, ?_, ?_⟩
  · simp only [List.length_map]
    exact List.length_pos.mpr hne
  · exact one_le_token_sum _ (fun b hb => List.of_mem_filter hb) hne
  · cases o with
    | error e => simp [detectTextSingle, Except.map] at hok
    | ok rs =>
        have hx : x = aggregateBoxes rs := by
          simpa [detectTextSingle, Except.map] using hok.symm
        subst hx
        exact aggregateBoxes_bounds rs

/-- Witness: the mixed region list has a surviving box, so the divisors
are positive and the stored confidences of its aggregation lie in
`[0, 1]`. -/
theorem division_guards_witness :
    0 < ((([⟨0, 0, 1, 1, "ab", 0⟩, ⟨0, 0, 1, 1, "!!", 90⟩,
          ⟨0, 0, 2, 2, "x1", 80⟩] : List RawBox).filter keepBox).map
        toBoundingBox).length ∧
    1 ≤ ((([⟨0, 0, 1, 1, "ab", 0⟩, ⟨0, 0, 1, 1, "!!", 90⟩,
          ⟨0, 0, 2, 2, "x1", 80⟩] : List RawBox).filter keepBox).map
        (fun b => countTokens b.word)).sum ∧
    0 ≤ (⟨4/5, 4/5, 2, [⟨0, 0, 2, 2, "x1", 4/5⟩], 0, 0⟩ :
        ClassifierResult).meanConfidence ∧
    (⟨4/5, 4/5, 2, [⟨0, 0, 2, 2, "x1", 4/5⟩], 0, 0⟩ :
        ClassifierResult).meanConfidence ≤ 1 ∧
    0 ≤ (⟨4/5, 4/5, 2, [⟨0, 0, 2, 2, "x1", 4/5⟩], 0, 0⟩ :
        ClassifierResult).weightedConfidence ∧
    (⟨4/5, 4/5, 2, [⟨0, 0, 2, 2, "x1", 4/5⟩], 0, 0⟩ :
        ClassifierResult).weightedConfidence ≤ 1 :=
  division_guards _ _ _ (by decide) mixed_boxes_eval

/-! ## Phase 2 selection (C1)

The consumer loop `collectRotationResults` is compared with the
spec-side description: the first success at or over the threshold, or
else the earliest maximum among the Phase 1 result and all successes. -/

/-- `find?` only looks at the predicate's values on the list. -/
lemma find?_congr_mem {α : Type} (p q : α → Bool) :
    ∀ l : List α, (∀ a ∈ l, p a = q a) → l.find? p = l.find? q := by
  intro l
  induction l with
  | nil => intro _; rfl
  | cons a t ih =>
      intro h
      have ha := h a (List.mem_cons_self a t)
      have ht := ih fun x hx => h x (List.mem_cons_of_mem a hx)
      cases hqa : q a with
      | true =>
          rw [List.find?_cons_of_pos _ (ha.trans hqa),
            List.find?_cons_of_pos _ hqa]
      | false =>
          rw [List.find?_cons_of_neg _ (by simp [ha.trans hqa]),
            List.find?_cons_of_neg _ (by simp [hqa])]
          exact ht

/-- `isMaxIn` in terms of its defining property. -/
lemma isMaxIn_eq_true_iff (l : List ClassifierResult) (e : ClassifierResult) :
    isMaxIn l e = true ↔
      ∀ x ∈ l, x.weightedConfidence ≤ e.weightedConfidence := by
  simp [isMaxIn, List.all_eq_true]

/-- Unfolding `isMaxIn` over a cons cell. -/
lemma isMaxIn_cons (q : ClassifierResult) (m : List ClassifierResult)
    (e : ClassifierResult) :
    isMaxIn (q :: m) e =
      (decide (q.weightedConfidence ≤ e.weightedConfidence) && isMaxIn m e) := by
  simp [isMaxIn]

/-- Every non-empty list has an element of maximal weighted
confidence. -/
lemma exists_wc_max :
    ∀ (l : List ClassifierResult) (p : ClassifierResult),
      ∃ e ∈ p :: l, ∀ x ∈ p :: l,
        x.weightedConfidence ≤ e.weightedConfidence := by
  intro l
  induction l with
  | nil =>
      intro p
      exact ⟨p, List.mem_cons_self p [], by simp⟩
  | cons r t ih =>
      intro p
      obtain ⟨e, he, hmax⟩ := ih r
      by_cases h : e.weightedConfidence ≤ p.weightedConfidence
      · refine ⟨p, List.mem_cons_self p _, ?_⟩
        intro x hx
        rcases List.mem_cons.mp hx with rfl | hx'
        · exact le_refl _
        · exact (hmax x hx').trans h
      · refine ⟨e, List.mem_cons_of_mem p he, ?_⟩
        intro x hx
        rcases List.mem_cons.mp hx with rfl | hx'
        · exact le_of_lt (not_le.mp h)
        · exact hmax x hx'

/-- Some element of `p :: l` passes the `isMaxIn` test. -/
lemma isMaxIn_exists (p : ClassifierResult) (l : List ClassifierResult) :
    ∃ e ∈ p :: l, isMaxIn (p :: l) e = true := by
  obtain ⟨e, he, hmax⟩ := exists_wc_max l p
  exact ⟨e, he, (isMaxIn_eq_true_iff _ _).mpr hmax⟩

/-- Unfolding `firstOverThreshold` over a cons cell. -/
lemma firstOverThreshold_cons (r : ClassifierResult)
    (l : List ClassifierResult) :
    firstOverThreshold (r :: l) =
      if confidenceThreshold ≤ r.weightedConfidence then some r
      else firstOverThreshold l := by
  unfold firstOverThreshold
  by_cases h : confidenceThreshold ≤ r.weightedConfidence
  · simp [List.find?, h]
  · simp [List.find?, h]

/-- Folding one element into the running best commutes with the
earliest-maximum selection. -/
lemma firstMaxFrom_cons (p r : ClassifierResult) (l : List ClassifierResult) :
    firstMaxFrom p (r :: l) =
      firstMaxFrom
        (if r.weightedConfidence > p.weightedConfidence then r else p) l := by
  by_cases h : r.weightedConfidence > p.weightedConfidence
  · rw [if_pos h]
    unfold firstMaxFrom
    have h1 : isMaxIn (p :: r :: l) p = false := by
      rw [Bool.eq_false_iff]
      intro htrue
      exact absurd ((isMaxIn_eq_true_iff _ _).mp htrue r (by simp))
        (not_le.mpr h)
    rw [List.find?_cons_of_neg _ (by simp [h1])]
    rw [find?_congr_mem (isMaxIn (p :: r :: l)) (isMaxIn (r :: l)) (r :: l) ?hpt]
    case hpt =>
      intro e _
      rw [isMaxIn_cons]
      cases hre : isMaxIn (r :: l) e with
      | false => simp
      | true =>
          have hr : r.weightedConfidence ≤ e.weightedConfidence :=
            (isMaxIn_eq_true_iff _ _).mp hre r (List.mem_cons_self r l)
          have hp : p.weightedConfidence ≤ e.weightedConfidence :=
            le_of_lt (lt_of_lt_of_le h hr)
          simp [hp]
    obtain ⟨e, he, hm⟩ := isMaxIn_exists r l
    have hs : ((r :: l).find? (isMaxIn (r :: l))).isSome :=
      List.find?_isSome.mpr ⟨e, he, hm⟩
    obtain ⟨v, hv⟩ := Option.isSome_iff_exists.mp hs
    rw [hv]
    rfl
  · rw [if_neg h]
    have hle : r.weightedConfidence ≤ p.weightedConfidence := not_lt.mp h
    unfold firstMaxFrom
    have hfun : isMaxIn (p :: r :: l) = isMaxIn (p :: l) := by
      funext e
      rw [isMaxIn_cons, isMaxIn_cons r l e, isMaxIn_cons p l e]
      cases hpe : decide
          (p.weightedConfidence ≤ e.weightedConfidence) with
      | false => simp
      | true =>
          have hr : r.weightedConfidence ≤ e.weightedConfidence :=
            le_trans hle (of_decide_eq_true hpe)
          simp [hr]
    rw [hfun]
    cases hQp : isMaxIn (p :: l) p with
    | true =>
        rw [List.find?_cons_of_pos _ hQp, List.find?_cons_of_pos _ hQp]
    | false =>
        have hQr : isMaxIn (p :: l) r = false := by
          rw [Bool.eq_false_iff]
          intro htrue
          have hall := (isMaxIn_eq_true_iff _ _).mp htrue
          have hallp : ∀ x ∈ p :: l,
              x.weightedConfidence ≤ p.weightedConfidence := by
            intro x hx
            exact (hall x hx).trans hle
          exact absurd ((isMaxIn_eq_true_iff _ _).mpr hallp)
            (by simp [hQp])
        rw [List.find?_cons_of_neg _ (by simp [hQp]),
          List.find?_cons_of_neg _ (by simp [hQr]),
          List.find?_cons_of_neg _ (by simp [hQp])]

/-- The collection loop, as a function of the outcome list, equals the
spec-side selection: first success at or over the threshold, or else the
earliest maximum among the initial best and all successes. -/
lemma collectRotationResults_eq :
    ∀ (l : List (Except OcrError ClassifierResult)) (p : ClassifierResult),
      collectRotationResults p l =
        (firstOverThreshold (okResults l)).getD
          (firstMaxFrom p (okResults l)) := by
  intro l
  induction l with
  | nil =>
      intro p
      simp [collectRotationResults, okResults, firstOverThreshold,
        firstMaxFrom, isMaxIn, List.find?]
  | cons a t ih =>
      intro p
      cases a with
      | error e =>
          rw [show collectRotationResults p (.error e :: t) =
              collectRotationResults p t from rfl,
            show okResults (.error e :: t) = okResults t from rfl]
          exact ih p
      | ok r =>
          rw [show collectRotationResults p (.ok r :: t) =
              (if r.weightedConfidence ≥ confidenceThreshold then r
               else collectRotationResults
                 (if r.weightedConfidence > p.weightedConfidence then r
                  else p) t) from rfl,
            show okResults (.ok r :: t) = r :: okResults t from rfl]
          by_cases hth : confidenceThreshold ≤ r.weightedConfidence
          · rw [if_pos hth, firstOverThreshold_cons, if_pos hth]
            rfl
          · rw [if_neg hth, firstOverThreshold_cons, if_neg hth, ih,
              firstMaxFrom_cons]

/-- **C1.** Given the arrival-ordered Phase 2 outcomes,
`detectTextWithRotations` returns the first successful outcome whose
weighted confidence reaches 0.66 if one exists; otherwise it returns,
among the Phase 1 result followed by all successful outcomes (errored
outcomes are skipped, never fatal), the earliest one attaining the
maximal weighted confidence — replacement happens only on strictly
greater confidence. -/
theorem rotation_selection (sf : ℝ) (p : ClassifierResult)
    (outs : List (Int × Except OcrError (List RawBox))) :
    detectTextWithRotations sf p outs =
      (firstOverThreshold (okResults (outs.map (rotationOutcome sf)))).getD
        (firstMaxFrom p (okResults (outs.map (rotationOutcome sf)))) :=
  collectRotationResults_eq _ p

end OCRClassifier
